import Mathlib

/-!
Verification of the port-congestion discrete-event simulation
(`port_simulation.py`), centred on `run_simulation` and its inner
`ship_process` / `arrival_process` generators.

The Python program drives SimPy.  The embedding below models the parts of
SimPy that the program exercises, at the level of observable scheduling
semantics:

* the environment keeps a virtual clock and a pending-event queue ordered by
  the key `(time, priority, eid)`, where `eid` is a strictly increasing
  counter assigned when an event is scheduled (`heappush` of that triple);
* process-start events (`env.process`) use priority URGENT = 0, while
  timeouts, resource grants, release notifications and process-termination
  events use priority NORMAL = 1;
* `simpy.Resource` keeps a user count and a FIFO queue of pending requests;
  a `request()` appends itself to the put queue and runs `_trigger_put`
  once, which grants the queue HEAD when `users < capacity` (the waking
  event is scheduled at the current time) — a new request is granted
  immediately only when no one else is waiting; a `release()` removes the
  user synchronously and schedules a release event whose dispatch runs
  `_trigger_put` again, handing the freed unit to the head waiter;
* a generator runs synchronously from one `yield` to the next inside a
  single dispatch; when it finishes, its process event is scheduled (a
  no-op here, since nothing joins these processes);
* `env.timeout(d)` with `d < 0` raises `ValueError('Negative delay')`; an
  exception escaping a process aborts `env.run`.  The model marks the state
  with `SimError.negativeDelay` and the run loop halts there.  (SimPy may
  dispatch a few already-queued same-instant events before the exception
  propagates out of `env.run`; those extra dispatches cannot emit further
  records in the traces analysed here and are not modelled.)
* `simpy.Resource(env, capacity)` raises when `capacity <= 0`
  (`invalidCapacity` below), and `env.run(until=t)` raises when
  `t <= env.now` (`invalidUntil` below).

`run_simulation` reads the arrival rows, spawns `arrival_process`, and runs
the environment with `until = arrivals.max() + 20000`; the model reproduces
that horizon.  For an empty arrival table the Python horizon is `NaN`
(pandas max of an empty column); the observed behaviour of that run is that
the arrival process starts, finds nothing to do, and the `until` event then
stops the run with no error and no records; taking `max = 0` (horizon
20000) reproduces exactly that observable outcome.
-/

namespace PortSim

/-- One arrival row of the input table: `ship_id`, `arrival_time_minutes`,
`cargo_containers` (integers, as produced by `generate_data.py`). -/
structure Row where
  ship_id : Int
  arrival_time : Int
  cargo : Int
deriving DecidableEq

/-- Configuration of `run_simulation`: `num_berths`, `num_cranes`,
`unload_time` (minutes per container). -/
structure Config where
  berths : Nat
  cranes : Nat
  unload : Int
deriving DecidableEq

/-- The dictionary `ship_data` appended to `results_data` when a ship
departs. -/
structure TimingRecord where
  ship_id : Int
  cargo : Int
  time_arrived : Int
  time_docked : Int
  time_crane_secured : Int
  time_unloading_complete : Int
  time_departed : Int
deriving DecidableEq

/-- A row of the KPI table built by `calculate_and_save_results`. -/
structure KpiRow where
  ship_id : Int
  cargo : Int
  time_arrived : Int
  time_docked : Int
  time_crane_secured : Int
  time_unloading_complete : Int
  time_departed : Int
  wait_time_for_berth : Int
  wait_time_for_crane : Int
  turnaround_time : Int
deriving DecidableEq

/-- Resumption point of a suspended `ship_process` generator, together with
the timestamps it has already recorded.  A ship suspends at its three
`yield`s: the berth request, the crane request, and the unloading timeout. -/
inductive ShipCont where
  | init (r : Row)
  | docked (r : Row) (arr : Int)
  | secured (r : Row) (arr dock : Int)
  | unloaded (r : Row) (arr dock sec : Int)
deriving DecidableEq

/-- The two `simpy.Resource` pools of `Port`. -/
inductive Pool where
  | berths
  | cranes
deriving DecidableEq

/-- The payload of a pending event: which suspended computation the
dispatch resumes.

* `arrival toSpawn rest`: resumption of the `arrival_process` generator.
  `toSpawn` is the row whose timeout just elapsed (its ship is spawned
  now); `rest` are the rows not yet reached.  The initial process-start
  event is `arrival none rows`.
* `shipSeg c`: resumption of a `ship_process` generator at `c` (either its
  start event or a granted request or an elapsed timeout).
* `triggerPut p`: a SimPy release event on pool `p`; its dispatch runs
  `_trigger_put`, granting the head of the wait queue when room is free.
* `noop`: a process-termination event (scheduled when a generator ends;
  nothing joins these processes, so its dispatch does nothing).
* `stop`: the `until` event created by `env.run(until=...)`. -/
inductive Action where
  | arrival (toSpawn : Option Row) (rest : List Row)
  | shipSeg (c : ShipCont)
  | triggerPut (p : Pool)
  | noop
  | stop
deriving DecidableEq

/-- A scheduled event: absolute `time`, `prio` (0 = URGENT, 1 = NORMAL),
creation sequence number `eid`, and the suspended computation. -/
structure Event where
  time : Int
  prio : Nat
  eid : Nat
  act : Action
deriving DecidableEq

/-- State of one `simpy.Resource`: fixed capacity, number of current users,
and the FIFO queue of requesters waiting for a unit. -/
structure ResourceState where
  capacity : Nat
  users : Nat
  waitq : List ShipCont
deriving DecidableEq

/-- The exceptions the program can hit: `ValueError('Negative delay')` from
`env.timeout`, `ValueError` from `simpy.Resource` on non-positive capacity,
and `ValueError` from `env.run` when `until <= now`. -/
inductive SimError where
  | negativeDelay
  | invalidCapacity
  | invalidUntil
deriving DecidableEq

/-- Full simulation state: virtual clock, next event sequence number, the
pending-event queue, the two resource pools, the `results_data` list, and
the pending exception (if one was raised). -/
structure SimState where
  clock : Int
  nextEid : Nat
  queue : List Event
  berths : ResourceState
  cranes : ResourceState
  results : List TimingRecord
  err : Option SimError
deriving DecidableEq

/-- SimPy's heap ordering on pending events: lexicographic on
`(time, priority, eid)` (non-strict in the last component). -/
def Event.le (a b : Event) : Bool :=
  a.time < b.time ||
    (a.time == b.time && (a.prio < b.prio || (a.prio == b.prio && a.eid ≤ b.eid)))

/-- Extract the minimum pending event (the `heappop` of `env.step`),
returning it and the remaining queue.  Among events with equal keys the
earlier list element wins; event keys are distinct in reachable states
because `eid`s are distinct. -/
def popMin : List Event → Option (Event × List Event)
  | [] => none
  | e :: es =>
    match popMin es with
    | none => some (e, [])
    | some (m, rest) => if Event.le e m then some (e, es) else some (m, e :: rest)

/-- Schedule a new event `delay` after the current clock (`env.schedule`):
it receives the next sequence number.  All call sites have `delay ≥ 0`
(negative delays are rejected before reaching this point). -/
def schedule (s : SimState) (delay : Int) (prio : Nat) (a : Action) : SimState :=
  { s with
    queue := s.queue ++ [⟨s.clock + delay, prio, s.nextEid, a⟩]
    nextEid := s.nextEid + 1 }

/-- Read one of the two pools. -/
def SimState.getRes (s : SimState) : Pool → ResourceState
  | .berths => s.berths
  | .cranes => s.cranes

/-- Replace one of the two pools. -/
def SimState.setRes (s : SimState) (p : Pool) (r : ResourceState) : SimState :=
  match p with
  | .berths => { s with berths := r }
  | .cranes => { s with cranes := r }

/-- One pass of SimPy's `_trigger_put`: examine the head of the put queue
and, when a unit is free, make it a user and schedule its grant event at
the current time.  Exactly one waiter — the FIFO head — is handled per
call: for a `simpy.Resource`, `_do_put` returns `None`, so the scan breaks
after the first queue entry.  Runs both when a release event dispatches
(it is a callback of that event) and synchronously when a new request is
created. -/
def doTriggerPut (s : SimState) (p : Pool) : SimState :=
  let r := s.getRes p
  match r.waitq with
  | [] => s
  | c :: cs =>
    if r.users < r.capacity then
      schedule (s.setRes p { r with users := r.users + 1, waitq := cs }) 0 1 (.shipSeg c)
    else s

/-- `resource.request()` issued by the ship whose resumption is `c`
(SimPy `Put.__init__`): the request joins the tail of the FIFO put queue,
then `_trigger_put` runs once.  So when a unit is free the queue HEAD is
granted — which is the new request only if nobody else is waiting; a
newcomer can never overtake queued waiters, even in the window where
capacity was freed synchronously by a release whose hand-over event has
not yet dispatched. -/
def reqResource (s : SimState) (p : Pool) (c : ShipCont) : SimState :=
  let r := s.getRes p
  doTriggerPut (s.setRes p { r with waitq := r.waitq ++ [c] }) p

/-- `resource.release(request)` on leaving a `with` block: the unit is
freed synchronously and a release event is scheduled at the current time;
the actual hand-over to a waiter happens when that event dispatches
(`_trigger_put` is a callback of the release event). -/
def releaseResource (s : SimState) (p : Pool) : SimState :=
  let r := s.getRes p
  schedule (s.setRes p { r with users := r.users - 1 }) 0 1 (.triggerPut p)

/-- Run the synchronous segment of the program that event `e` wakes, up to
its next suspension (the callbacks of one `env.step`).  The caller has
already removed `e` from the queue and advanced the clock to `e.time`.

* `arrival`: body of `arrival_process` — spawn the ship whose timeout just
  elapsed (`env.process` schedules its start event, URGENT), then either
  compute the next row's delay `arrival_time - env.now` (raising on a
  negative delay, i.e. unsorted input) or fall off the loop end.
* `shipSeg`: body of `ship_process` between two `yield`s — stamp the
  current time, then request the next resource / start the unloading
  timeout / release crane then berth, stamp departure and append the
  record.
-/
def dispatch (cfg : Config) (s : SimState) (e : Event) : SimState :=
  match e.act with
  | .stop => s
  | .noop => s
  | .triggerPut p => doTriggerPut s p
  | .arrival toSpawn rest =>
    let s1 :=
      match toSpawn with
      | none => s
      | some r => schedule s 0 0 (.shipSeg (.init r))
    match rest with
    | [] => schedule s1 0 1 .noop
    | r :: rs =>
      let delay := r.arrival_time - s.clock
      if delay < 0 then { s1 with err := some .negativeDelay }
      else schedule s1 delay 1 (.arrival (some r) rs)
  | .shipSeg (.init r) => reqResource s .berths (.docked r s.clock)
  | .shipSeg (.docked r arr) => reqResource s .cranes (.secured r arr s.clock)
  | .shipSeg (.secured r arr dock) =>
    let dur := r.cargo * cfg.unload
    if dur < 0 then { s with err := some .negativeDelay }
    else schedule s dur 1 (.shipSeg (.unloaded r arr dock s.clock))
  | .shipSeg (.unloaded r arr dock sec) =>
    let s1 := releaseResource s .cranes
    let s2 := releaseResource s1 .berths
    let s3 := { s2 with
      results := s2.results ++ [⟨r.ship_id, r.cargo, arr, dock, sec, s2.clock, s2.clock⟩] }
    schedule s3 0 1 .noop

/-- The event loop of `env.run(until=...)`: repeatedly pop the minimum
event, advance the clock, and run its callbacks; halt when the `until`
event is reached, when an exception is pending, or when no events remain.
`fuel` bounds the number of steps; `simFuel` below always suffices. -/
def runAux (cfg : Config) : Nat → SimState → Option SimState
  | 0, _ => none
  | fuel + 1, s =>
    if s.err.isSome then some s
    else
      match popMin s.queue with
      | none => some s
      | some (e, rest) =>
        if e.act = .stop then some { s with queue := rest, clock := e.time }
        else runAux cfg fuel (dispatch cfg { s with queue := rest, clock := e.time } e)

/-- `arrivals_df['arrival_time_minutes'].max()` for a non-empty table; the
`0` default for the empty table stands in for the observable effect of the
`NaN` horizon (see the header comment). -/
def maxArrival : List Row → Int
  | [] => 0
  | r :: rs => (rs.map Row.arrival_time).foldl max r.arrival_time

/-- A fuel budget sufficient for any input (proved by the potential
argument below): the run loop always halts within `8n + 4` dispatches. -/
def simFuel (rows : List Row) : Nat := 8 * rows.length + 4

/-- The environment as set up by `run_simulation` before `env.run`: clock
0, the `arrival_process` start event (eid 0, URGENT), the `until` event at
the horizon (eid 1, URGENT), empty pools, empty `results_data`. -/
def initState (cfg : Config) (rows : List Row) (horizon : Int) : SimState :=
  { clock := 0
    nextEid := 2
    queue := [⟨0, 0, 0, .arrival none rows⟩, ⟨horizon, 0, 1, .stop⟩]
    berths := ⟨cfg.berths, 0, []⟩
    cranes := ⟨cfg.cranes, 0, []⟩
    results := []
    err := none }

/-- `run_simulation(num_berths, num_cranes, unload_time, ...)`.
`resultsData` is the content of the global `results_data` list left over
from any previous run; the function clears it (line 111) before running,
so the run starts from an empty results list regardless.  The horizon is
`arrivals.max() + 20000` (line 151).  Returns the final environment state
(`none` only on fuel exhaustion, which never occurs). -/
def runSimulation (cfg : Config) (rows : List Row) (resultsData : List TimingRecord) :
    Option SimState :=
  let _cleared : List TimingRecord := []
  if cfg.berths = 0 ∨ cfg.cranes = 0 then
    some { clock := 0, nextEid := 0, queue := [], berths := ⟨cfg.berths, 0, []⟩,
           cranes := ⟨cfg.cranes, 0, []⟩, results := _cleared,
           err := some .invalidCapacity }
  else
    let horizon := maxArrival rows + 20000
    if horizon ≤ 0 then
      some { clock := 0, nextEid := 0, queue := [], berths := ⟨cfg.berths, 0, []⟩,
             cranes := ⟨cfg.cranes, 0, []⟩, results := _cleared,
             err := some .invalidUntil }
    else
      runAux cfg (simFuel rows) (initState cfg rows horizon)

/-- The `results_data` list after a run. -/
def resultsOf (o : Option SimState) : List TimingRecord :=
  match o with
  | some s => s.results
  | none => []

/-- The pending exception after a run (`some none` = the run returned
normally). -/
def errOf (o : Option SimState) : Option (Option SimError) :=
  Option.map SimState.err o

/-- A run finished cleanly: it returned without exception, the event queue
was fully drained when the `until` event fired (no process was cut short by
the horizon), and no ship was still waiting for a resource. -/
def cleanRun (o : Option SimState) : Prop :=
  match o with
  | some s => s.err = none ∧ s.queue = [] ∧ s.berths.waitq = [] ∧ s.cranes.waitq = []
  | none => False

instance (o : Option SimState) : Decidable (cleanRun o) :=
  match o with
  | some _ => inferInstanceAs (Decidable (_ ∧ _ ∧ _ ∧ _))
  | none => inferInstanceAs (Decidable False)

/-- `calculate_and_save_results`: with an empty results list it only warns
and writes nothing (`none`); otherwise it derives the three KPI columns
`wait_time_for_berth`, `wait_time_for_crane`, `turnaround_time`. -/
def calculateAndSaveResults (resultsData : List TimingRecord) : Option (List KpiRow) :=
  if resultsData = [] then none
  else
    some (resultsData.map fun r =>
      ⟨r.ship_id, r.cargo, r.time_arrived, r.time_docked, r.time_crane_secured,
       r.time_unloading_complete, r.time_departed,
       r.time_docked - r.time_arrived,
       r.time_crane_secured - r.time_docked,
       r.time_departed - r.time_arrived⟩)

/-! ### Ordering lemmas for the pending-event queue -/

theorem Event.le_iff (a b : Event) :
    Event.le a b = true ↔
      (a.time < b.time ∨ (a.time = b.time ∧
        (a.prio < b.prio ∨ (a.prio = b.prio ∧ a.eid ≤ b.eid)))) := by
  simp [Event.le, Bool.or_eq_true, Bool.and_eq_true, decide_eq_true_eq, beq_iff_eq]

theorem Event.le_trans (a b c : Event) (hab : Event.le a b = true)
    (hbc : Event.le b c = true) : Event.le a c = true := by
  rw [Event.le_iff] at hab hbc ⊢
  omega

theorem popMin_eq_none (l : List Event) : popMin l = none ↔ l = [] := by
  cases l with
  | nil => simp [popMin]
  | cons e es =>
    simp only [popMin]
    cases h : popMin es with
    | none => simp
    | some p =>
      obtain ⟨m, rest⟩ := p
      by_cases hle : Event.le e m = true <;> simp [hle]

theorem popMin_perm (l : List Event) (e : Event) (r : List Event)
    (h : popMin l = some (e, r)) : l.Perm (e :: r) := by
  induction l generalizing e r with
  | nil => simp [popMin] at h
  | cons x xs ih =>
    simp only [popMin] at h
    cases hp : popMin xs with
    | none =>
      rw [hp] at h
      rw [popMin_eq_none] at hp
      subst hp
      simp only [Option.some.injEq, Prod.mk.injEq] at h
      obtain ⟨he, hr⟩ := h
      subst he; subst hr
      exact List.Perm.refl _
    | some p =>
      obtain ⟨m, rest⟩ := p
      rw [hp] at h
      dsimp only at h
      by_cases hle : Event.le x m = true
      · rw [if_pos hle] at h
        simp only [Option.some.injEq, Prod.mk.injEq] at h
        obtain ⟨he, hr⟩ := h
        subst he; subst hr
        exact List.Perm.refl _
      · rw [if_neg hle] at h
        simp only [Option.some.injEq, Prod.mk.injEq] at h
        obtain ⟨he, hr⟩ := h
        subst he; subst hr
        exact ((ih m rest hp).cons x).trans (List.Perm.swap m x rest)

/-- Remaining dispatch weight of a suspended ship. -/
def contPot : ShipCont → Nat
  | .init _ => 7
  | .docked _ _ => 6
  | .secured _ _ _ => 5
  | .unloaded _ _ _ _ => 4

/-- Remaining dispatch weight of an event payload. -/
def actPot : Action → Nat
  | .arrival toSpawn rest =>
    (match toSpawn with | some _ => 7 | none => 0) + 8 * rest.length + 2
  | .shipSeg c => contPot c
  | .triggerPut _ => 1
  | .noop => 1
  | .stop => 1

/-- Total weight of a pending-event queue. -/
def potQ (q : List Event) : Nat := (q.map fun e => actPot e.act).sum

/-- Total weight of a resource wait queue. -/
def wPot (l : List ShipCont) : Nat := (l.map contPot).sum

/-- Total remaining dispatch weight of a state. -/
def potential (s : SimState) : Nat :=
  potQ s.queue + wPot s.berths.waitq + wPot s.cranes.waitq

theorem potQ_nil : potQ [] = 0 := rfl

theorem potQ_cons (e : Event) (q : List Event) :
    potQ (e :: q) = actPot e.act + potQ q := by
  simp [potQ]

theorem potQ_append (q l : List Event) : potQ (q ++ l) = potQ q + potQ l := by
  simp [potQ]

theorem wPot_nil : wPot [] = 0 := rfl

theorem wPot_cons (c : ShipCont) (l : List ShipCont) :
    wPot (c :: l) = contPot c + wPot l := by
  simp [wPot]

theorem wPot_append (q l : List ShipCont) : wPot (q ++ l) = wPot q + wPot l := by
  simp [wPot]

theorem potQ_perm (q l : List Event) (h : q.Perm l) : potQ q = potQ l := by
  unfold potQ
  exact List.Perm.sum_eq (List.Perm.map _ h)

theorem potential_schedule (s : SimState) (d : Int) (p : Nat) (a : Action) :
    potential (schedule s d p a) = potential s + actPot a := by
  simp only [potential, schedule, potQ_append, potQ_cons, potQ_nil]
  omega

theorem potential_err (s : SimState) (x : Option SimError) :
    potential { s with err := x } = potential s := rfl

theorem potential_results (s : SimState) (l : List TimingRecord) :
    potential { s with results := l } = potential s := rfl

theorem potential_releaseResource (s : SimState) (p : Pool) :
    potential (releaseResource s p) = potential s + 1 := by
  cases p with
  | berths =>
    simp only [releaseResource, SimState.getRes, SimState.setRes]
    rw [potential_schedule]
    have h2 : potential { s with berths :=
        { s.berths with users := s.berths.users - 1 } } = potential s := rfl
    rw [h2]
    rfl
  | cranes =>
    simp only [releaseResource, SimState.getRes, SimState.setRes]
    rw [potential_schedule]
    have h2 : potential { s with cranes :=
        { s.cranes with users := s.cranes.users - 1 } } = potential s := rfl
    rw [h2]
    rfl

theorem potential_doTriggerPut (s : SimState) (p : Pool) :
    potential (doTriggerPut s p) = potential s := by
  cases p with
  | berths =>
    simp only [doTriggerPut, SimState.getRes, SimState.setRes]
    cases h : s.berths.waitq with
    | nil => rfl
    | cons c cs =>
      dsimp only
      by_cases hlt : s.berths.users < s.berths.capacity
      · rw [if_pos hlt, potential_schedule]
        simp only [potential, h, wPot_cons, actPot]
        omega
      · rw [if_neg hlt]
  | cranes =>
    simp only [doTriggerPut, SimState.getRes, SimState.setRes]
    cases h : s.cranes.waitq with
    | nil => rfl
    | cons c cs =>
      dsimp only
      by_cases hlt : s.cranes.users < s.cranes.capacity
      · rw [if_pos hlt, potential_schedule]
        simp only [potential, h, wPot_cons, actPot]
        omega
      · rw [if_neg hlt]

theorem potential_reqResource (s : SimState) (p : Pool) (c : ShipCont) :
    potential (reqResource s p c) = potential s + contPot c := by
  cases p with
  | berths =>
    simp only [reqResource, SimState.getRes, SimState.setRes]
    rw [potential_doTriggerPut]
    simp only [potential, wPot_append, wPot_cons, wPot_nil]
    omega
  | cranes =>
    simp only [reqResource, SimState.getRes, SimState.setRes]
    rw [potential_doTriggerPut]
    simp only [potential, wPot_append, wPot_cons, wPot_nil]
    omega

theorem dispatch_pot (cfg : Config) (s : SimState) (e : Event) :
    potential (dispatch cfg s e) < potential s + actPot e.act := by
  rcases e with ⟨t, pr, k, a⟩
  cases a with
  | stop => simp [dispatch, actPot]
  | noop => simp [dispatch, actPot]
  | triggerPut p => simp [dispatch, potential_doTriggerPut, actPot]
  | arrival toSpawn rest =>
    cases toSpawn with
    | none =>
      cases rest with
      | nil =>
        simp only [dispatch]
        rw [potential_schedule]
        simp [actPot]
      | cons r rs =>
        simp only [dispatch]
        by_cases hneg : r.arrival_time - s.clock < 0
        · rw [if_pos hneg, potential_err]
          simp only [actPot, List.length_cons]
          omega
        · rw [if_neg hneg, potential_schedule]
          simp only [actPot, List.length_cons]
          omega
    | some r0 =>
      cases rest with
      | nil =>
        simp only [dispatch]
        rw [potential_schedule, potential_schedule]
        simp [actPot, contPot]
      | cons r rs =>
        simp only [dispatch]
        by_cases hneg : r.arrival_time - s.clock < 0
        · rw [if_pos hneg, potential_err, potential_schedule]
          simp only [actPot, contPot, List.length_cons]
          omega
        · rw [if_neg hneg, potential_schedule, potential_schedule]
          simp only [actPot, contPot, List.length_cons]
          omega
  | shipSeg c =>
    cases c with
    | init r =>
      simp only [dispatch]
      rw [potential_reqResource]
      simp [actPot, contPot]
    | docked r arr =>
      simp only [dispatch]
      rw [potential_reqResource]
      simp [actPot, contPot]
    | secured r arr dock =>
      simp only [dispatch]
      by_cases hneg : r.cargo * cfg.unload < 0
      · rw [if_pos hneg, potential_err]
        simp [actPot, contPot]
      · rw [if_neg hneg, potential_schedule]
        simp [actPot, contPot]
    | unloaded r arr dock sec =>
      simp only [dispatch]
      rw [potential_schedule, potential_results, potential_releaseResource,
        potential_releaseResource]
      simp [actPot, contPot]

theorem runAux_total (cfg : Config) :
    ∀ fuel s, potential s < fuel → (runAux cfg fuel s).isSome = true := by
  intro fuel
  induction fuel with
  | zero => intro s h; omega
  | succ n ih =>
    intro s h
    simp only [runAux]
    by_cases he : s.err.isSome
    · simp [he]
    · simp only [he, if_false, Bool.false_eq_true]
      cases hp : popMin s.queue with
      | none => simp
      | some p =>
        obtain ⟨e, rest⟩ := p
        by_cases hs : e.act = .stop
        · simp [hs]
        · simp only [hs, if_false]
          apply ih
          have hperm : potQ s.queue = actPot e.act + potQ rest := by
            rw [potQ_perm _ _ (popMin_perm _ _ _ hp), potQ_cons]
          have hlt := dispatch_pot cfg { s with queue := rest, clock := e.time } e
          have heq : potential { s with queue := rest, clock := e.time } + actPot e.act =
              potential s := by
            simp only [potential]
            omega
          omega

/-- The initial potential is below the fuel budget of `runSimulation`. -/
theorem potential_initState (cfg : Config) (rows : List Row) (horizon : Int) :
    potential (initState cfg rows horizon) < simFuel rows := by
  simp only [potential, initState, potQ_cons, potQ_nil, wPot_nil, actPot, simFuel]
  omega

/-! ### Conservation of ships

Each event payload accounts for the ships it will still inject into the
system; waiting requests count one ship each.  Every dispatch that does not
raise moves this accounting around without losing a ship, and a departing
ship converts into exactly one `TimingRecord`. -/

/-- Ships still to be injected by an event payload: pending arrival rows
plus the ship a `shipSeg` event resumes. -/
def actShips : Action → Nat
  | .arrival toSpawn rest => (match toSpawn with | some _ => 1 | none => 0) + rest.length
  | .shipSeg _ => 1
  | .triggerPut _ => 0
  | .noop => 0
  | .stop => 0

/-- Ships accounted for by a pending-event queue. -/
def shipsQ (q : List Event) : Nat := (q.map fun e => actShips e.act).sum

/-- Records already emitted plus ships still live anywhere in the system. -/
def bookTotal (s : SimState) : Nat :=
  s.results.length + shipsQ s.queue + s.berths.waitq.length + s.cranes.waitq.length

theorem shipsQ_nil : shipsQ [] = 0 := rfl

theorem shipsQ_cons (e : Event) (q : List Event) :
    shipsQ (e :: q) = actShips e.act + shipsQ q := by
  simp [shipsQ]

theorem shipsQ_append (q l : List Event) : shipsQ (q ++ l) = shipsQ q + shipsQ l := by
  simp [shipsQ]

theorem shipsQ_perm (q l : List Event) (h : q.Perm l) : shipsQ q = shipsQ l := by
  unfold shipsQ
  exact List.Perm.sum_eq (List.Perm.map _ h)

theorem bookTotal_schedule (s : SimState) (d : Int) (p : Nat) (a : Action) :
    bookTotal (schedule s d p a) = bookTotal s + actShips a := by
  simp only [bookTotal, schedule, shipsQ_append, shipsQ_cons, shipsQ_nil]
  omega

theorem bookTotal_err (s : SimState) (x : Option SimError) :
    bookTotal { s with err := x } = bookTotal s := rfl

theorem bookTotal_releaseResource (s : SimState) (p : Pool) :
    bookTotal (releaseResource s p) = bookTotal s := by
  cases p with
  | berths =>
    simp only [releaseResource, SimState.getRes, SimState.setRes]
    rw [bookTotal_schedule]
    have h2 : bookTotal { s with berths :=
        { s.berths with users := s.berths.users - 1 } } = bookTotal s := rfl
    rw [h2]
    rfl
  | cranes =>
    simp only [releaseResource, SimState.getRes, SimState.setRes]
    rw [bookTotal_schedule]
    have h2 : bookTotal { s with cranes :=
        { s.cranes with users := s.cranes.users - 1 } } = bookTotal s := rfl
    rw [h2]
    rfl

theorem bookTotal_doTriggerPut (s : SimState) (p : Pool) :
    bookTotal (doTriggerPut s p) = bookTotal s := by
  cases p with
  | berths =>
    simp only [doTriggerPut, SimState.getRes, SimState.setRes]
    cases h : s.berths.waitq with
    | nil => rfl
    | cons c cs =>
      dsimp only
      by_cases hlt : s.berths.users < s.berths.capacity
      · rw [if_pos hlt, bookTotal_schedule]
        simp only [bookTotal, h, List.length_cons, actShips]
        omega
      · rw [if_neg hlt]
  | cranes =>
    simp only [doTriggerPut, SimState.getRes, SimState.setRes]
    cases h : s.cranes.waitq with
    | nil => rfl
    | cons c cs =>
      dsimp only
      by_cases hlt : s.cranes.users < s.cranes.capacity
      · rw [if_pos hlt, bookTotal_schedule]
        simp only [bookTotal, h, List.length_cons, actShips]
        omega
      · rw [if_neg hlt]

theorem bookTotal_reqResource (s : SimState) (p : Pool) (c : ShipCont) :
    bookTotal (reqResource s p c) = bookTotal s + 1 := by
  cases p with
  | berths =>
    simp only [reqResource, SimState.getRes, SimState.setRes]
    rw [bookTotal_doTriggerPut]
    simp only [bookTotal, List.length_append, List.length_cons, List.length_nil]
    omega
  | cranes =>
    simp only [reqResource, SimState.getRes, SimState.setRes]
    rw [bookTotal_doTriggerPut]
    simp only [bookTotal, List.length_append, List.length_cons, List.length_nil]
    omega

/-- A dispatch that does not raise conserves the ship accounting: the
dispatched event's ships are redistributed into new events, wait-queue
entries, or exactly one emitted record. -/
theorem bookTotal_addRecord (s : SimState) (tr : TimingRecord) :
    bookTotal { s with results := s.results ++ [tr] } = bookTotal s + 1 := by
  simp only [bookTotal, List.length_append, List.length_cons, List.length_nil]
  omega

theorem dispatch_book (cfg : Config) (s : SimState) (e : Event)
    (h : (dispatch cfg s e).err = none) :
    bookTotal (dispatch cfg s e) = bookTotal s + actShips e.act := by
  rcases e with ⟨t, pr, k, a⟩
  cases a with
  | stop => simp [dispatch, actShips]
  | noop => simp [dispatch, actShips]
  | triggerPut p => simp [dispatch, bookTotal_doTriggerPut, actShips]
  | arrival toSpawn rest =>
    cases toSpawn with
    | none =>
      cases rest with
      | nil =>
        simp only [dispatch]
        rw [bookTotal_schedule]
        simp [actShips]
      | cons r rs =>
        simp only [dispatch] at h ⊢
        by_cases hneg : r.arrival_time - s.clock < 0
        · rw [if_pos hneg] at h
          simp at h
        · rw [if_neg hneg, bookTotal_schedule]
          simp only [actShips, List.length_cons]
          omega
    | some r0 =>
      cases rest with
      | nil =>
        simp only [dispatch]
        rw [bookTotal_schedule, bookTotal_schedule]
        simp [actShips]
      | cons r rs =>
        simp only [dispatch] at h ⊢
        by_cases hneg : r.arrival_time - s.clock < 0
        · rw [if_pos hneg] at h
          simp at h
        · rw [if_neg hneg, bookTotal_schedule, bookTotal_schedule]
          simp only [actShips, List.length_cons]
          omega
  | shipSeg c =>
    cases c with
    | init r =>
      simp only [dispatch]
      rw [bookTotal_reqResource]
      simp [actShips]
    | docked r arr =>
      simp only [dispatch]
      rw [bookTotal_reqResource]
      simp [actShips]
    | secured r arr dock =>
      simp only [dispatch] at h ⊢
      by_cases hneg : r.cargo * cfg.unload < 0
      · rw [if_pos hneg] at h
        simp at h
      · rw [if_neg hneg, bookTotal_schedule]
        simp [actShips]
    | unloaded r arr dock sec =>
      simp only [dispatch]
      rw [bookTotal_schedule, bookTotal_addRecord, bookTotal_releaseResource,
        bookTotal_releaseResource]
      simp [actShips]

/-- The run loop never clears a pending exception. -/
theorem runAux_err_none (cfg : Config) :
    ∀ fuel s out, runAux cfg fuel s = some out → out.err = none → s.err = none := by
  intro fuel
  induction fuel with
  | zero => intro s out h; simp [runAux] at h
  | succ n ih =>
    intro s out h hout
    simp only [runAux] at h
    by_cases he : s.err.isSome
    · rw [if_pos he] at h
      cases h
      exact hout
    · exact Option.not_isSome_iff_eq_none.mp he

/-- A dispatch whose result carries no exception did not raise. -/
theorem dispatch_err_of_none (cfg : Config) (s : SimState) (e : Event)
    (hs : s.err = none) (h : (dispatch cfg s e).err = none) :
    (dispatch cfg s e).err = s.err := by
  rw [h, hs]

/-- Ship conservation along the run loop, as long as no exception is
raised. -/
theorem runAux_book (cfg : Config) :
    ∀ fuel s out, runAux cfg fuel s = some out → out.err = none →
      bookTotal out = bookTotal s := by
  intro fuel
  induction fuel with
  | zero => intro s out h; simp [runAux] at h
  | succ n ih =>
    intro s out h hout
    simp only [runAux] at h
    by_cases he : s.err.isSome
    · rw [if_pos he] at h
      cases h
      rfl
    · rw [if_neg he] at h
      cases hp : popMin s.queue with
      | none =>
        rw [hp] at h
        cases h
        rfl
      | some p =>
        obtain ⟨e, rest⟩ := p
        rw [hp] at h
        dsimp only at h
        by_cases hstop : e.act = .stop
        · rw [if_pos hstop] at h
          cases h
          have : bookTotal { s with queue := rest, clock := e.time } = bookTotal s := by
            simp only [bookTotal]
            rw [shipsQ_perm _ _ (popMin_perm _ _ _ hp), shipsQ_cons, hstop]
            simp [actShips]
          exact this
        · rw [if_neg hstop] at h
          have hnext := ih _ _ h hout
          have hdn : (dispatch cfg { s with queue := rest, clock := e.time } e).err =
              none := runAux_err_none cfg n _ out h hout
          have hsn : ({ s with queue := rest, clock := e.time } : SimState).err = none :=
            Option.not_isSome_iff_eq_none.mp he
          have hb := dispatch_book cfg { s with queue := rest, clock := e.time } e hdn
          have hq : bookTotal { s with queue := rest, clock := e.time } + actShips e.act =
              bookTotal s := by
            simp only [bookTotal]
            rw [shipsQ_perm _ _ (popMin_perm _ _ _ hp), shipsQ_cons]
            omega
          omega

/-- The initial accounting equals the number of input rows. -/
theorem bookTotal_initState (cfg : Config) (rows : List Row) (horizon : Int) :
    bookTotal (initState cfg rows horizon) = rows.length := by
  simp only [bookTotal, initState, shipsQ_cons, shipsQ_nil, actShips]
  simp

/-! ### Timestamp ordering invariant

Every suspended ship carries timestamps bounded by the time of the event
that will resume it; the clock only advances; hence every emitted record
has non-decreasing lifecycle timestamps, departs the instant unloading
completes, and its unloading span equals `cargo * unload_time`. -/

/-- The pending-event queue left behind after a run (non-empty exactly when
the `until` horizon cut work short). -/
def queueOf (o : Option SimState) : List Event :=
  match o with
  | some s => s.queue
  | none => []

/-! ### Concrete scenarios used in the claims -/

/-- The spec's worked scenario configuration: 1 berth, 1 crane,
2 minutes per container. -/
def cfgScenario : Config := ⟨1, 1, 2⟩

/-- The spec's worked scenario arrivals: ships 1 and 2 both at t = 0 with
5 and 3 containers. -/
def rowsScenario : List Row := [⟨1, 0, 5⟩, ⟨2, 0, 3⟩]

/-- A small clean run: one ship, 5 containers. -/
def rowsOneShip : List Row := [⟨1, 0, 5⟩]

/-- C1 (counterexample): with the single arrival `(1, 0, 0)` — an invalid
record by the spec's `cargo_size > 0` rule — the run emits one
`TimingRecord` while the number of valid input records is zero, so the
emitted count does not equal the valid count: the code never rejects a
record for `InvalidCargoSize`. -/
theorem claim1_counterexample :
    (resultsOf (runSimulation ⟨2, 2, 2⟩ [⟨1, 0, 0⟩] [])).length = 1 ∧
      (List.filter (fun r => decide (0 < r.cargo)) [(⟨1, 0, 0⟩ : Row)]).length = 0 := by
  decide

/-- C1 (amended): whenever the run finishes cleanly — no exception, event
queue fully drained at the horizon, no ship still waiting — the number of
emitted `TimingRecord`s equals the number of ALL input arrival records;
there is no `InvalidCargoSize` rejection, and runs cut short by the
horizon or aborted by a negative-delay error emit fewer. -/
theorem claim1_conservation (cfg : Config) (rows : List Row) (g : List TimingRecord)
    (h : cleanRun (runSimulation cfg rows g)) :
    (resultsOf (runSimulation cfg rows g)).length = rows.length := by
  unfold runSimulation at h ⊢
  by_cases hcap : cfg.berths = 0 ∨ cfg.cranes = 0
  · rw [if_pos hcap] at h
    simp [cleanRun] at h
  · rw [if_neg hcap] at h ⊢
    by_cases hhz : maxArrival rows + 20000 ≤ 0
    · rw [if_pos hhz] at h
      simp [cleanRun] at h
    · rw [if_neg hhz] at h ⊢
      cases hrun : runAux cfg (simFuel rows)
          (initState cfg rows (maxArrival rows + 20000)) with
      | none =>
        rw [hrun] at h
        simp [cleanRun] at h
      | some out =>
        rw [hrun] at h
        simp only [cleanRun] at h
        obtain ⟨he, hq, hbq, hcq⟩ := h
        have hbook := runAux_book cfg _ _ _ hrun he
        rw [bookTotal_initState] at hbook
        simp only [bookTotal, hq, hbq, hcq, shipsQ_nil, List.length_nil] at hbook
        simp only [resultsOf]
        omega

/-- C1 (witness): the one-ship scenario finishes cleanly and emits exactly
one record for its one arrival row. -/
theorem claim1_conservation_witness :
    (resultsOf (runSimulation cfgScenario rowsOneShip [])).length =
      rowsOneShip.length :=
  claim1_conservation cfgScenario rowsOneShip [] (by decide)

/-- C3: the worked scenario (1 berth, 1 crane, 2 min/container, arrivals
`[(1,0,5),(2,0,3)]`) produces exactly the spec's trace: ship 1 docks,
secures the crane at t = 0, finishes and departs at t = 10; ship 2 docks
and secures the crane at t = 10, finishes and departs at t = 16, with
berth wait 10 and crane wait 0. -/
theorem claim3_scenario :
    calculateAndSaveResults (resultsOf (runSimulation cfgScenario rowsScenario [])) =
      some [⟨1, 5, 0, 0, 0, 10, 10, 0, 0, 10⟩, ⟨2, 3, 0, 10, 10, 16, 16, 10, 0, 16⟩] := by
  decide

/-- C4 (counterexample): with one ship of 10001 containers arriving at
t = 0 under 2 min/container, the run returns normally at the horizon
`0 + 20000` while the ship's unloading-completion event (t = 20002) is
still pending: the horizon is an artificial cutoff that ends the run
before the ship departs, and no record is emitted for it. -/
theorem claim4_counterexample :
    errOf (runSimulation ⟨2, 2, 2⟩ [⟨1, 0, 10001⟩] []) = some none ∧
      resultsOf (runSimulation ⟨2, 2, 2⟩ [⟨1, 0, 10001⟩] []) = [] ∧
      queueOf (runSimulation ⟨2, 2, 2⟩ [⟨1, 0, 10001⟩] []) =
        [⟨20002, 1, 7, .shipSeg (.unloaded ⟨1, 0, 10001⟩ 0 0 0)⟩] := by
  decide

/-- C4 (amended): every run terminates — but because `run_simulation`
imposes the artificial horizon `max(arrival_time) + 20000` on `env.run`,
not because the event queue necessarily drains; ship processes not yet
departed at the horizon are cut short (see the counterexample). -/
theorem claim4_terminates (cfg : Config) (rows : List Row) (g : List TimingRecord) :
    (runSimulation cfg rows g).isSome = true := by
  unfold runSimulation
  by_cases hcap : cfg.berths = 0 ∨ cfg.cranes = 0
  · rw [if_pos hcap]
    rfl
  · rw [if_neg hcap]
    by_cases hhz : maxArrival rows + 20000 ≤ 0
    · rw [if_pos hhz]
      rfl
    · rw [if_neg hhz]
      exact runAux_total cfg _ _ (potential_initState cfg rows _)

/-- C5: on the unique completion path of `ship_process` — the dispatch of
its elapsed unloading timeout — the crane is released first (its release
event gets sequence number `nextEid`), then the berth (sequence
`nextEid + 1`), so at the same virtual instant the scheduler processes the
crane hand-over strictly before the berth hand-over; both user counts drop
by one in that same dispatch, and only then is the record appended with
`time_departed` equal to the current clock. -/
theorem claim5_release_order (cfg : Config) (s : SimState) (r : Row)
    (arr dock sec t : Int) (pr k : Nat) :
    (dispatch cfg s ⟨t, pr, k, .shipSeg (.unloaded r arr dock sec)⟩).queue =
      s.queue ++
        [⟨s.clock, 1, s.nextEid, .triggerPut .cranes⟩,
         ⟨s.clock, 1, s.nextEid + 1, .triggerPut .berths⟩,
         ⟨s.clock, 1, s.nextEid + 2, .noop⟩] ∧
    Event.le ⟨s.clock, 1, s.nextEid, .triggerPut .cranes⟩
      ⟨s.clock, 1, s.nextEid + 1, .triggerPut .berths⟩ = true ∧
    (dispatch cfg s ⟨t, pr, k, .shipSeg (.unloaded r arr dock sec)⟩).cranes.users =
      s.cranes.users - 1 ∧
    (dispatch cfg s ⟨t, pr, k, .shipSeg (.unloaded r arr dock sec)⟩).berths.users =
      s.berths.users - 1 ∧
    (dispatch cfg s ⟨t, pr, k, .shipSeg (.unloaded r arr dock sec)⟩).results =
      s.results ++ [⟨r.ship_id, r.cargo, arr, dock, sec, s.clock, s.clock⟩] := by
  refine ⟨?_, ?_, ?_, ?_, ?_⟩
  · simp [dispatch, releaseResource, schedule, SimState.setRes, SimState.getRes]
  · rw [Event.le_iff]
    dsimp only
    omega
  · rfl
  · rfl
  · simp [dispatch, releaseResource, schedule, SimState.setRes, SimState.getRes]

/-- C7 (counterexample): arrivals `[(1,0,-5),(2,0,3)]` with 2 berths and 2
cranes: the negative-cargo record is not rejected; its negative unloading
timeout raises and aborts the whole run at t = 0, so even the well-formed
ship 2 produces no record — the claim's per-record rejection and
continuation do not happen. -/
theorem claim7_counterexample :
    resultsOf (runSimulation ⟨2, 2, 2⟩ [⟨1, 0, -5⟩, ⟨2, 0, 3⟩] []) = [] ∧
      errOf (runSimulation ⟨2, 2, 2⟩ [⟨1, 0, -5⟩, ⟨2, 0, 3⟩] []) =
        some (some .negativeDelay) := by
  decide

/-- C6 (counterexample): with the unsorted arrivals
`[(1,0,1),(2,10,1),(3,5,1)]` the failure is not surfaced before the
simulation starts and ships are spawned regardless: ship 1 runs to
completion (one record, departing at t = 2) before the out-of-order third
row raises a negative-delay error at t = 10, with the spawned ship 2 still
pending in the queue. -/
theorem claim6_counterexample :
    (resultsOf (runSimulation ⟨2, 2, 2⟩ [⟨1, 0, 1⟩, ⟨2, 10, 1⟩, ⟨3, 5, 1⟩] [])).length = 1 ∧
      errOf (runSimulation ⟨2, 2, 2⟩ [⟨1, 0, 1⟩, ⟨2, 10, 1⟩, ⟨3, 5, 1⟩] []) =
        some (some .negativeDelay) ∧
      (⟨10, 0, 11, .shipSeg (.init ⟨2, 10, 1⟩)⟩ : Event) ∈
        queueOf (runSimulation ⟨2, 2, 2⟩ [⟨1, 0, 1⟩, ⟨2, 10, 1⟩, ⟨3, 5, 1⟩] []) := by
  decide

/-- C8: for the empty arrival sequence (with valid positive capacities)
the engine completes without raising, emits zero `TimingRecord`s, and
`calculate_and_save_results` only warns, writing no output. -/
theorem claim8_empty_run (cfg : Config) (g : List TimingRecord)
    (hb : cfg.berths ≠ 0) (hc : cfg.cranes ≠ 0) :
    resultsOf (runSimulation cfg [] g) = [] ∧
      errOf (runSimulation cfg [] g) = some none ∧
      calculateAndSaveResults (resultsOf (runSimulation cfg [] g)) = none := by
  unfold runSimulation
  rw [if_neg (by simp [hb, hc])]
  rw [if_neg (by norm_num [maxArrival])]
  exact ⟨rfl, rfl, rfl⟩

/-- C8 (witness): the empty run at the default configuration. -/
theorem claim8_empty_run_witness :
    resultsOf (runSimulation ⟨2, 2, 2⟩ [] []) = [] ∧
      errOf (runSimulation ⟨2, 2, 2⟩ [] []) = some none ∧
      calculateAndSaveResults (resultsOf (runSimulation ⟨2, 2, 2⟩ [] [])) = none :=
  claim8_empty_run ⟨2, 2, 2⟩ [] (by decide) (by decide)

/-- C9: `run_simulation` is a function of the configuration and the
arrival sequence alone: whatever the global `results_data` list contained
before each run, two runs on the same inputs return identical states —
same records, same values, same order — because the list is cleared before
the deterministic event loop starts. -/
theorem claim9_deterministic (cfg : Config) (rows : List Row)
    (g1 g2 : List TimingRecord) :
    runSimulation cfg rows g1 = runSimulation cfg rows g2 := rfl

/-- Stepping lemma for the run loop: with fuel left, no pending exception,
and a non-`stop` minimal event, one iteration dispatches it. -/
theorem runAux_step (cfg : Config) (fuel : Nat) (s : SimState) (e : Event)
    (rest : List Event) (hs : s.err = none) (hp : popMin s.queue = some (e, rest))
    (hns : ¬e.act = .stop) :
    runAux cfg (fuel + 1) s =
      runAux cfg fuel (dispatch cfg { s with queue := rest, clock := e.time } e) := by
  simp [runAux, hs, hp, hns]

/-- With fuel left, a pending exception ends the run at once. -/
theorem runAux_of_err (cfg : Config) (fuel : Nat) (s : SimState) (x : SimError)
    (hf : fuel ≠ 0) (h : s.err = some x) : runAux cfg fuel s = some s := by
  cases fuel with
  | zero => omega
  | succ n => simp [runAux, h]

theorem le_foldl_max (l : List Int) (a : Int) : a ≤ List.foldl max a l := by
  induction l generalizing a with
  | nil => exact le_refl a
  | cons x xs ih => exact le_trans (le_max_left a x) (ih (max a x))

theorem maxArrival_head_le (r : Row) (rs : List Row) :
    r.arrival_time ≤ maxArrival (r :: rs) :=
  le_foldl_max _ _

/-- C7 (amended): arrival records with non-positive cargo are never
rejected per record.  For a negative product `cargo * unload_time` the run
instead aborts wholesale: with a single arrival (at t = 0, any id, any
positive capacities) whose unloading duration is negative, the ship
reaches the crane and the negative timeout raises, ending the run with a
negative-delay error and an empty results list.  (A zero cargo is simply
processed, see the C1 counterexample.) -/
theorem claim7_negative_cargo_aborts (cfg : Config) (sid cargo : Int)
    (g : List TimingRecord) (hb : cfg.berths ≠ 0) (hc : cfg.cranes ≠ 0)
    (hneg : cargo * cfg.unload < 0) :
    errOf (runSimulation cfg [⟨sid, 0, cargo⟩] g) = some (some .negativeDelay) ∧
      resultsOf (runSimulation cfg [⟨sid, 0, cargo⟩] g) = [] := by
  have h3 : 0 < cfg.berths := Nat.pos_of_ne_zero hb
  have h4 : 0 < cfg.cranes := Nat.pos_of_ne_zero hc
  have key : runSimulation cfg [⟨sid, 0, cargo⟩] g =
      some ⟨0, 7, [⟨20000, 0, 1, .stop⟩], ⟨cfg.berths, 1, []⟩, ⟨cfg.cranes, 1, []⟩, [],
        some .negativeDelay⟩ := by
    unfold runSimulation
    rw [if_neg (by simp [hb, hc])]
    rw [if_neg (by norm_num [maxArrival])]
    show runAux cfg 9 (dispatch cfg
      ⟨0, 5, [⟨20000, 0, 1, .stop⟩, ⟨0, 1, 4, .noop⟩],
        ⟨cfg.berths, 0, []⟩, ⟨cfg.cranes, 0, []⟩, [], none⟩
      ⟨0, 0, 3, .shipSeg (.init ⟨sid, 0, cargo⟩)⟩) = _
    simp only [dispatch, reqResource, doTriggerPut, SimState.getRes, SimState.setRes,
      List.nil_append]
    rw [if_pos h3]
    show runAux cfg 7 (dispatch cfg
      ⟨0, 6, [⟨20000, 0, 1, .stop⟩],
        ⟨cfg.berths, 1, []⟩, ⟨cfg.cranes, 0, []⟩, [], none⟩
      ⟨0, 1, 5, .shipSeg (.docked ⟨sid, 0, cargo⟩ 0)⟩) = _
    simp only [dispatch, reqResource, doTriggerPut, SimState.getRes, SimState.setRes,
      List.nil_append]
    rw [if_pos h4]
    show runAux cfg 6 (dispatch cfg
      ⟨0, 7, [⟨20000, 0, 1, .stop⟩],
        ⟨cfg.berths, 1, []⟩, ⟨cfg.cranes, 1, []⟩, [], none⟩
      ⟨0, 1, 6, .shipSeg (.secured ⟨sid, 0, cargo⟩ 0 0)⟩) = _
    simp only [dispatch]
    rw [if_pos hneg]
    rfl
  rw [key]
  exact ⟨rfl, rfl⟩

/-- C7 (witness): the amended theorem at a concrete instance — one ship,
cargo −5, default configuration. -/
theorem claim7_negative_cargo_aborts_witness :
    errOf (runSimulation ⟨2, 2, 2⟩ [⟨1, 0, -5⟩] []) = some (some .negativeDelay) ∧
      resultsOf (runSimulation ⟨2, 2, 2⟩ [⟨1, 0, -5⟩] []) = [] :=
  claim7_negative_cargo_aborts ⟨2, 2, 2⟩ 1 (-5) [] (by decide) (by decide) (by decide)

/-- C6 (amended): the engine performs no pre-simulation sort check.  For
an input whose second row is scheduled before its first (with positive
capacities and a non-negative first arrival), the failure instead surfaces
mid-run as a negative-delay error when `arrival_process` reaches the
out-of-order row: the run ends with the error, the first row's ship has
already been spawned (its start event sits in the queue), and with the
offending row later in the input earlier ships may even complete first
(see the counterexample). -/
theorem claim6_unsorted_mid_run (cfg : Config) (r1 r2 : Row) (rest : List Row)
    (g : List TimingRecord) (hb : cfg.berths ≠ 0) (hc : cfg.cranes ≠ 0)
    (h0 : 0 ≤ r1.arrival_time) (h21 : r2.arrival_time < r1.arrival_time) :
    errOf (runSimulation cfg (r1 :: r2 :: rest) g) = some (some .negativeDelay) ∧
      resultsOf (runSimulation cfg (r1 :: r2 :: rest) g) = [] ∧
      Action.shipSeg (.init r1) ∈
        (queueOf (runSimulation cfg (r1 :: r2 :: rest) g)).map Event.act := by
  have hmax := maxArrival_head_le r1 (r2 :: rest)
  have key : runSimulation cfg (r1 :: r2 :: rest) g = some
      ⟨0 + (r1.arrival_time - 0), 4,
        [⟨maxArrival (r1 :: r2 :: rest) + 20000, 0, 1, .stop⟩,
         ⟨0 + (r1.arrival_time - 0) + 0, 0, 3, .shipSeg (.init r1)⟩],
        ⟨cfg.berths, 0, []⟩, ⟨cfg.cranes, 0, []⟩, [], some .negativeDelay⟩ := by
    unfold runSimulation
    rw [if_neg (by simp [hb, hc])]
    rw [if_neg (by omega)]
    rw [show simFuel (r1 :: r2 :: rest) = (8 * rest.length + 19) + 1 from by
      simp only [simFuel, List.length_cons]; omega]
    have hp1 : popMin (initState cfg (r1 :: r2 :: rest)
        (maxArrival (r1 :: r2 :: rest) + 20000)).queue =
        some (⟨0, 0, 0, .arrival none (r1 :: r2 :: rest)⟩,
          [⟨maxArrival (r1 :: r2 :: rest) + 20000, 0, 1, .stop⟩]) := by
      have hle : Event.le ⟨0, 0, 0, .arrival none (r1 :: r2 :: rest)⟩
          ⟨maxArrival (r1 :: r2 :: rest) + 20000, 0, 1, .stop⟩ = true := by
        rw [Event.le_iff]
        dsimp only
        omega
      simp [initState, popMin, hle]
    rw [runAux_step cfg (8 * rest.length + 19) _ _ _ rfl hp1 (by simp)]
    simp only [dispatch]
    rw [if_neg (show ¬(r1.arrival_time - (0 : Int) < 0) from by omega)]
    show runAux cfg (8 * rest.length + 19)
      (⟨0, 3, [⟨maxArrival (r1 :: r2 :: rest) + 20000, 0, 1, .stop⟩,
          ⟨0 + (r1.arrival_time - 0), 1, 2, .arrival (some r1) (r2 :: rest)⟩],
        ⟨cfg.berths, 0, []⟩, ⟨cfg.cranes, 0, []⟩, [], none⟩ : SimState) = _
    rw [show 8 * rest.length + 19 = (8 * rest.length + 18) + 1 from by omega]
    have hp2 : popMin [⟨maxArrival (r1 :: r2 :: rest) + 20000, 0, 1, .stop⟩,
        (⟨0 + (r1.arrival_time - 0), 1, 2, .arrival (some r1) (r2 :: rest)⟩ : Event)] =
        some (⟨0 + (r1.arrival_time - 0), 1, 2, .arrival (some r1) (r2 :: rest)⟩,
          [⟨maxArrival (r1 :: r2 :: rest) + 20000, 0, 1, .stop⟩]) := by
      have hle : Event.le ⟨maxArrival (r1 :: r2 :: rest) + 20000, 0, 1, .stop⟩
          ⟨r1.arrival_time, 1, 2, .arrival (some r1) (r2 :: rest)⟩ = false := by
        rw [Bool.eq_false_iff]
        intro hcon
        rw [Event.le_iff] at hcon
        dsimp only at hcon
        omega
      simp [popMin, hle]
    rw [runAux_step cfg (8 * rest.length + 18) _ _ _ rfl hp2 (by simp)]
    simp only [dispatch]
    rw [if_pos (show r2.arrival_time - (0 + (r1.arrival_time - 0) : Int) < 0 from by
      omega)]
    rw [runAux_of_err cfg (8 * rest.length + 18) _ .negativeDelay (by omega) rfl]
    rfl
  rw [key]
  refine ⟨rfl, rfl, ?_⟩
  simp [queueOf]

/-- C6 (witness): the amended theorem at a concrete instance — arrivals
`[(1,5,1),(2,3,1)]`, default configuration. -/
theorem claim6_unsorted_mid_run_witness :
    errOf (runSimulation ⟨2, 2, 2⟩ [⟨1, 5, 1⟩, ⟨2, 3, 1⟩] []) =
        some (some .negativeDelay) ∧
      resultsOf (runSimulation ⟨2, 2, 2⟩ [⟨1, 5, 1⟩, ⟨2, 3, 1⟩] []) = [] ∧
      Action.shipSeg (.init ⟨1, 5, 1⟩) ∈
        (queueOf (runSimulation ⟨2, 2, 2⟩ [⟨1, 5, 1⟩, ⟨2, 3, 1⟩] [])).map Event.act :=
  claim6_unsorted_mid_run ⟨2, 2, 2⟩ ⟨1, 5, 1⟩ ⟨2, 3, 1⟩ [] [] (by decide) (by decide)
    (by decide) (by decide)

end PortSim
